import Mathlib

/-!
Verification of the vocab-app word-selection, progress-tracking, statistics
and review-controller logic. The definitions below are shallow embeddings of
the TypeScript source: the supabase tables become lists, timestamps become
natural numbers counting hours since the epoch (so one calendar day is 24
units), and the supabase query builders become pure list operations. Random
choices made with Math.random are modelled by explicit numeric parameters.
-/

namespace VocabApp

/-- Row of the dictionary table (interface Word in the word-fetch module). -/
structure Word where
  id : String
  english_word : String
  chinese_translation : String
  example_sentence : Option String
  created_at : Nat
  updated_at : Nat
deriving DecidableEq, Repr

/-- Row of the user_progress table (interface UserProgress in the
progress-update module). -/
structure ProgressRecord where
  user_id : String
  word_id : String
  status : String
  last_reviewed_at : Nat
  created_at : Nat
  updated_at : Nat
deriving DecidableEq, Repr

/-- The two supabase tables visible to the client. -/
structure Store where
  dict : List Word
  progress : List ProgressRecord
deriving DecidableEq, Repr

/-- Composite primary key of a user_progress row. -/
def progressKey (r : ProgressRecord) : String × String :=
  (r.user_id, r.word_id)

/-- Invariants enforced by the migration 001_create_vocabulary_tables.sql:
primary key on dictionary.id, composite primary key (user_id, word_id),
foreign key from user_progress.word_id into dictionary, and the CHECK
constraint restricting status to new, known or unknown. -/
def WellFormed (st : Store) : Prop :=
  (st.dict.map Word.id).Nodup ∧
  (st.progress.map progressKey).Nodup ∧
  (∀ r ∈ st.progress, r.word_id ∈ st.dict.map Word.id) ∧
  (∀ r ∈ st.progress, r.status = "new" ∨ r.status = "known" ∨ r.status = "unknown")

/-- At most one user_progress row per (user, word) pair. -/
def UniquePerPair (st : Store) : Prop :=
  (st.progress.map progressKey).Nodup

/-- Lookup of a dictionary row by id (the inner join used by the priority
query and the foreign-key target of writes). -/
def dictFind (st : Store) (wordId : String) : Option Word :=
  st.dict.find? (fun w => w.id == wordId)

/-- Learning status of a word for a user, as stored: none when the user has
no row for the word (getWordProgress treats this as the word being new). -/
def statusFor (st : Store) (u w : String) : Option String :=
  (st.progress.find? (fun r => r.user_id == u && r.word_id == w)).map ProgressRecord.status

/-- Result shape of the progress-update functions. -/
structure ProgressUpdateResult where
  data : Option ProgressRecord
  error : Option String
  success : Bool
deriving DecidableEq, Repr

/-- The supabase upsert with onConflict (user_id, word_id): overwrite the
status and last_reviewed_at of an existing row for the pair (the created_at
column is left untouched, the updated_at trigger fires), otherwise insert a
fresh row whose three timestamp columns default to the write time. -/
def upsertProgress (l : List ProgressRecord) (u w s : String) (now : Nat) :
    List ProgressRecord :=
  if l.any (fun r => r.user_id == u && r.word_id == w) then
    l.map (fun r =>
      if r.user_id == u && r.word_id == w then
        { r with status := s, last_reviewed_at := now, updated_at := now }
      else r)
  else
    l ++ [⟨u, w, s, now, now, now⟩]

/-- updateWordStatus from the progress-update module: validate the ids and
the status, then upsert. A write whose word_id violates the foreign key is
rejected by the store and surfaces as the generic update failure. -/
def updateWordStatus (st : Store) (userId wordId status : String) (now : Nat) :
    ProgressUpdateResult × Store :=
  if userId = "" ∨ wordId = "" then
    (⟨none, some "User ID and Word ID are required", false⟩, st)
  else if ¬(status = "known" ∨ status = "unknown") then
    (⟨none, some "Status must be either known or unknown", false⟩, st)
  else if wordId ∈ st.dict.map Word.id then
    match (upsertProgress st.progress userId wordId status now).find?
        (fun r => r.user_id == userId && r.word_id == wordId) with
    | some row =>
      (⟨some row, none, true⟩, ⟨st.dict, upsertProgress st.progress userId wordId status now⟩)
    | none => (⟨none, some "No data returned from update operation", false⟩, st)
  else
    (⟨none, some "Failed to update word status", false⟩, st)

/-- markWordAsKnown delegates to updateWordStatus with the literal status. -/
def markWordAsKnown (st : Store) (userId wordId : String) (now : Nat) :
    ProgressUpdateResult × Store :=
  updateWordStatus st userId wordId "known" now

/-- markWordAsUnknown delegates to updateWordStatus with the literal status. -/
def markWordAsUnknown (st : Store) (userId wordId : String) (now : Nat) :
    ProgressUpdateResult × Store :=
  updateWordStatus st userId wordId "unknown" now

/-- The user_progress rows of one (user, word) pair. -/
def recordsFor (st : Store) (u w : String) : List ProgressRecord :=
  st.progress.filter (fun r => r.user_id == u && r.word_id == w)

/-- Creation timestamp the upserted row keeps: the one already stored for
the pair, or the write time when the pair is fresh. -/
def createdOf (st : Store) (u w : String) (now : Nat) : Nat :=
  match st.progress.find? (fun r => r.user_id == u && r.word_id == w) with
  | some r => r.created_at
  | none => now

/-! Basic lemmas about find?, filter and the upsert. -/

theorem find?_eq_head?_filter {α : Type} (p : α → Bool) (l : List α) :
    l.find? p = (l.filter p).head? := by
  induction l with
  | nil => rfl
  | cons a l ih =>
    rw [List.find?_cons, List.filter_cons]
    cases h : p a with
    | true => simp
    | false => simpa using ih

theorem pairMatch_iff (r : ProgressRecord) (u w : String) :
    (r.user_id == u && r.word_id == w) = true ↔ r.user_id = u ∧ r.word_id = w := by
  simp [Bool.and_eq_true, beq_iff_eq]

theorem upsertProgress_mem (l : List ProgressRecord) (u w s : String) (now : Nat)
    (r : ProgressRecord) (hr : r ∈ upsertProgress l u w s now) :
    r ∈ l ∨ r.status = s := by
  unfold upsertProgress at hr
  by_cases hany : l.any (fun x => x.user_id == u && x.word_id == w) = true
  · rw [if_pos hany] at hr
    rcases List.mem_map.mp hr with ⟨x, hx, hfx⟩
    by_cases hpx : (x.user_id == u && x.word_id == w) = true
    · rw [if_pos hpx] at hfx
      right
      rw [← hfx]
    · simp only [Bool.not_eq_true] at hpx
      rw [if_neg (by simp [hpx])] at hfx
      left
      rw [← hfx]
      exact hx
  · simp only [Bool.not_eq_true] at hany
    rw [if_neg (by simp [hany])] at hr
    rcases List.mem_append.mp hr with h | h
    · exact Or.inl h
    · right
      simp only [List.mem_singleton] at h
      rw [h]

theorem upsertProgress_keys_nodup (l : List ProgressRecord) (u w s : String) (now : Nat)
    (hnd : (l.map progressKey).Nodup) :
    ((upsertProgress l u w s now).map progressKey).Nodup := by
  unfold upsertProgress
  by_cases hany : l.any (fun x => x.user_id == u && x.word_id == w) = true
  · rw [if_pos hany]
    have hkeys : (l.map (fun r =>
        if r.user_id == u && r.word_id == w then
          { r with status := s, last_reviewed_at := now, updated_at := now }
        else r)).map progressKey = l.map progressKey := by
      rw [List.map_map]
      apply List.map_congr_left
      intro r _
      by_cases hp : (r.user_id == u && r.word_id == w) = true
      · simp [Function.comp, hp, progressKey]
      · simp only [Bool.not_eq_true] at hp
        simp [Function.comp, hp]
    rw [hkeys]
    exact hnd
  · simp only [Bool.not_eq_true] at hany
    rw [if_neg (by simp [hany])]
    rw [List.map_append]
    rw [List.nodup_append]
    refine ⟨hnd, List.nodup_singleton _, ?_⟩
    intro k hk hk'
    simp only [List.map_cons, List.map_nil, List.mem_singleton] at hk'
    rcases List.mem_map.mp hk with ⟨r, hr, hkey⟩
    have hfalse := List.any_eq_false.mp hany r hr
    rw [hk'] at hkey
    have h1 : r.user_id = u := congrArg Prod.fst hkey
    have h2 : r.word_id = w := congrArg Prod.snd hkey
    simp [h1, h2] at hfalse

theorem upsertProgress_filter_fresh (l : List ProgressRecord) (u w s : String) (now : Nat)
    (hno : l.any (fun x => x.user_id == u && x.word_id == w) = false) :
    (upsertProgress l u w s now).filter (fun r => r.user_id == u && r.word_id == w)
      = [⟨u, w, s, now, now, now⟩] := by
  unfold upsertProgress
  rw [if_neg (by simp [hno])]
  rw [List.filter_append]
  have h1 : l.filter (fun r => r.user_id == u && r.word_id == w) = [] := by
    rw [List.filter_eq_nil_iff]
    intro r hr
    simp [List.any_eq_false.mp hno r hr]
  rw [h1]
  simp [List.filter_cons]

theorem filter_pair_of_find? (u w : String) :
    ∀ (l : List ProgressRecord), (l.map progressKey).Nodup →
    ∀ r0, l.find? (fun x => x.user_id == u && x.word_id == w) = some r0 →
    l.filter (fun x => x.user_id == u && x.word_id == w) = [r0]
  | [], _, r0, hfind => by simp at hfind
  | a :: l, hnd, r0, hfind => by
    rw [List.find?_cons] at hfind
    cases hpa : (a.user_id == u && a.word_id == w) with
    | true =>
      rw [hpa] at hfind
      have ha := (pairMatch_iff a u w).mp hpa
      have hr0 : r0 = a := (Option.some_inj.mp hfind).symm
      have hrest : ∀ x ∈ l, ¬ ((x.user_id == u && x.word_id == w) = true) := by
        intro x hx hcon
        have hxm := (pairMatch_iff x u w).mp hcon
        have hmem : progressKey a ∈ l.map progressKey := by
          refine List.mem_map.mpr ⟨x, hx, ?_⟩
          simp [progressKey, ha.1, ha.2, hxm.1, hxm.2]
        exact (List.nodup_cons.mp (by simpa using hnd)).1 hmem
      have hnil : l.filter (fun x => x.user_id == u && x.word_id == w) = [] :=
        List.filter_eq_nil_iff.mpr hrest
      simp [List.filter_cons, hpa, hnil, hr0]
    | false =>
      rw [hpa] at hfind
      simp only [List.filter_cons, hpa]
      simpa using filter_pair_of_find? u w l (List.nodup_cons.mp (by simpa using hnd)).2 r0 hfind

theorem upsertProgress_filter_existing (l : List ProgressRecord) (u w s : String) (now : Nat)
    (hnd : (l.map progressKey).Nodup) (r0 : ProgressRecord)
    (hfind : l.find? (fun x => x.user_id == u && x.word_id == w) = some r0) :
    (upsertProgress l u w s now).filter (fun r => r.user_id == u && r.word_id == w)
      = [⟨u, w, s, now, r0.created_at, now⟩] := by
  have hr0mem := List.mem_of_find?_eq_some hfind
  have hp0 := List.find?_some hfind
  have hm0 := (pairMatch_iff r0 u w).mp hp0
  have hany : l.any (fun x => x.user_id == u && x.word_id == w) = true :=
    List.any_eq_true.mpr ⟨r0, hr0mem, hp0⟩
  unfold upsertProgress
  rw [if_pos hany]
  rw [List.filter_map]
  have hcomp : ∀ x ∈ l,
      ((fun r : ProgressRecord => r.user_id == u && r.word_id == w) ∘ (fun r =>
        if r.user_id == u && r.word_id == w then
          { r with status := s, last_reviewed_at := now, updated_at := now }
        else r)) x = (fun r : ProgressRecord => r.user_id == u && r.word_id == w) x := by
    intro x _
    by_cases hpx : (x.user_id == u && x.word_id == w) = true
    · have hx := (pairMatch_iff x u w).mp hpx
      simp [Function.comp, hpx, hx.1, hx.2]
    · simp only [Bool.not_eq_true] at hpx
      simp [Function.comp, hpx]
  rw [List.filter_congr hcomp]
  rw [filter_pair_of_find? u w l hnd r0 hfind]
  rw [List.map_cons, List.map_nil]
  rw [if_pos hp0]
  have : ({ r0 with status := s, last_reviewed_at := now, updated_at := now } : ProgressRecord)
      = ⟨u, w, s, now, r0.created_at, now⟩ := by
    cases r0
    simp_all
  rw [this]

theorem updateWordStatus_store_cases (st : Store) (u w s : String) (now : Nat) :
    (updateWordStatus st u w s now).2 = st ∨
    ((updateWordStatus st u w s now).2
        = ⟨st.dict, upsertProgress st.progress u w s now⟩ ∧
      (s = "known" ∨ s = "unknown")) := by
  unfold updateWordStatus
  by_cases h1 : u = "" ∨ w = ""
  · rw [if_pos h1]
    exact Or.inl rfl
  · rw [if_neg h1]
    by_cases h2 : s = "known" ∨ s = "unknown"
    · rw [if_neg (not_not_intro h2)]
      by_cases h3 : w ∈ st.dict.map Word.id
      · rw [if_pos h3]
        cases hf : (upsertProgress st.progress u w s now).find?
            (fun r => r.user_id == u && r.word_id == w) with
        | some row => exact Or.inr ⟨rfl, h2⟩
        | none => exact Or.inl rfl
      · rw [if_neg h3]
        exact Or.inl rfl
    · rw [if_pos h2]
      exact Or.inl rfl

theorem uniquePerPair_updateWordStatus (st : Store) (u w s : String) (now : Nat)
    (h : UniquePerPair st) : UniquePerPair (updateWordStatus st u w s now).2 := by
  rcases updateWordStatus_store_cases st u w s now with hc | hc
  · rw [hc]
    exact h
  · rw [hc.1]
    exact upsertProgress_keys_nodup st.progress u w s now h

theorem updateWordStatus_success (st : Store) (u w s : String) (now : Nat)
    (hnd : (st.progress.map progressKey).Nodup)
    (hu : u ≠ "") (hw0 : w ≠ "") (hs : s = "known" ∨ s = "unknown")
    (hwid : w ∈ st.dict.map Word.id) :
    (updateWordStatus st u w s now).2
      = ⟨st.dict, upsertProgress st.progress u w s now⟩ ∧
    recordsFor (updateWordStatus st u w s now).2 u w
      = [⟨u, w, s, now, createdOf st u w now, now⟩] := by
  have hfilter : (upsertProgress st.progress u w s now).filter
      (fun r => r.user_id == u && r.word_id == w)
      = [⟨u, w, s, now, createdOf st u w now, now⟩] := by
    cases hf : st.progress.find? (fun r => r.user_id == u && r.word_id == w) with
    | some r0 =>
      have h1 := upsertProgress_filter_existing st.progress u w s now hnd r0 hf
      rw [h1]
      unfold createdOf
      rw [hf]
    | none =>
      have hno : st.progress.any (fun r => r.user_id == u && r.word_id == w) = false := by
        rw [List.any_eq_false]
        intro r hr
        exact (List.find?_eq_none.mp hf) r hr
      have h1 := upsertProgress_filter_fresh st.progress u w s now hno
      rw [h1]
      unfold createdOf
      rw [hf]
  have hfind : (upsertProgress st.progress u w s now).find?
      (fun r => r.user_id == u && r.word_id == w)
      = some ⟨u, w, s, now, createdOf st u w now, now⟩ := by
    rw [find?_eq_head?_filter, hfilter]
    rfl
  have hstore : (updateWordStatus st u w s now).2
      = ⟨st.dict, upsertProgress st.progress u w s now⟩ := by
    unfold updateWordStatus
    rw [if_neg (by simp [hu, hw0]), if_neg (not_not_intro hs), if_pos hwid]
    simp only [hfind]
  refine ⟨hstore, ?_⟩
  rw [hstore]
  exact hfilter

/-- C4: repeated recordDecision calls on one (user, word) pair keep a single
progress row: one updateWordStatus call from a store whose (user, word)
pairs are unique leaves them unique, and two consecutive known-writes on a
valid pair leave exactly one row for the pair, with status known, the
last-reviewed timestamp of the second call, and the creation timestamp of
the first write. -/
theorem updateWordStatus_upsert_unique (st : Store) (u w s : String) (now t1 t2 : Nat)
    (hwf : WellFormed st) (hu : u ≠ "") (hw0 : w ≠ "") (hwid : w ∈ st.dict.map Word.id) :
    UniquePerPair (updateWordStatus st u w s now).2 ∧
    recordsFor (updateWordStatus (updateWordStatus st u w "known" t1).2 u w "known" t2).2 u w
      = [⟨u, w, "known", t2, createdOf st u w t1, t2⟩] := by
  constructor
  · exact uniquePerPair_updateWordStatus st u w s now hwf.2.1
  · have hstep1 := updateWordStatus_success st u w "known" t1 hwf.2.1 hu hw0 (Or.inl rfl) hwid
    set st1 := (updateWordStatus st u w "known" t1).2 with hst1
    have hdict1 : st1.dict = st.dict := by rw [hstep1.1]
    have hprog1 : st1.progress = upsertProgress st.progress u w "known" t1 := by rw [hstep1.1]
    have hnd1 : (st1.progress.map progressKey).Nodup := by
      rw [hprog1]
      exact upsertProgress_keys_nodup st.progress u w "known" t1 hwf.2.1
    have hwid1 : w ∈ st1.dict.map Word.id := by rw [hdict1]; exact hwid
    have hstep2 := updateWordStatus_success st1 u w "known" t2 hnd1 hu hw0 (Or.inl rfl) hwid1
    rw [hstep2.2]
    have hfind1 : st1.progress.find? (fun r => r.user_id == u && r.word_id == w)
        = some ⟨u, w, "known", t1, createdOf st u w t1, t1⟩ := by
      have hrec : st1.progress.filter (fun r => r.user_id == u && r.word_id == w)
          = [⟨u, w, "known", t1, createdOf st u w t1, t1⟩] := hstep1.2
      rw [find?_eq_head?_filter, hrec]
      rfl
    have hcreated : createdOf st1 u w t2 = createdOf st u w t1 := by
      have hdef : createdOf st1 u w t2
          = match st1.progress.find? (fun r => r.user_id == u && r.word_id == w) with
            | some r => r.created_at
            | none => t2 := rfl
      rw [hdef, hfind1]
    rw [hcreated]

/-- The C4 conclusion evaluated on a concrete store: two known-writes on the
fresh pair (u, b) leave exactly the one expected row. -/
def wA : Word := ⟨"a", "apple", "ta", none, 0, 0⟩

def wB : Word := ⟨"b", "book", "tb", none, 0, 0⟩

def wC : Word := ⟨"c", "cat", "tc", none, 0, 0⟩

def sampleStore : Store :=
  ⟨[wA, wB, wC],
   [⟨"u", "a", "unknown", 5, 1, 1⟩, ⟨"u", "c", "known", 7, 1, 1⟩]⟩

theorem updateWordStatus_upsert_unique_witness :
    UniquePerPair (updateWordStatus sampleStore "u" "b" "unknown" 3).2 ∧
    recordsFor (updateWordStatus
        (updateWordStatus sampleStore "u" "b" "known" 5).2 "u" "b" "known" 9).2 "u" "b"
      = [⟨"u", "b", "known", 9, 5, 9⟩] := by
  have h := updateWordStatus_upsert_unique sampleStore "u" "b" "unknown" 3 5 9
    (by unfold WellFormed; decide) (by decide) (by decide) (by decide)
  exact ⟨h.1, h.2.trans (by decide)⟩

/-- C10: the application write path stores only the statuses known and
unknown. A call with any other status value returns a failure without
touching the store, every row of the store after any call either was
already present or carries status known or unknown, and the two mark
helpers are literal delegations to updateWordStatus. -/
theorem updateWordStatus_status_domain (st : Store) (u w s : String) (now : Nat)
    (hs : ¬(s = "known" ∨ s = "unknown")) :
    ((updateWordStatus st u w s now).1.success = false ∧
      (updateWordStatus st u w s now).2 = st) ∧
    (∀ s' now' r, r ∈ (updateWordStatus st u w s' now').2.progress →
      r ∈ st.progress ∨ r.status = "known" ∨ r.status = "unknown") ∧
    (∀ now', markWordAsKnown st u w now' = updateWordStatus st u w "known" now') ∧
    (∀ now', markWordAsUnknown st u w now' = updateWordStatus st u w "unknown" now') := by
  refine ⟨?_, ?_, fun _ => rfl, fun _ => rfl⟩
  · unfold updateWordStatus
    by_cases h1 : u = "" ∨ w = ""
    · rw [if_pos h1]
      exact ⟨rfl, rfl⟩
    · rw [if_neg h1, if_pos hs]
      exact ⟨rfl, rfl⟩
  · intro s' now' r hr
    rcases updateWordStatus_store_cases st u w s' now' with hc | hc
    · rw [hc] at hr
      exact Or.inl hr
    · rw [hc.1] at hr
      have hmem : r ∈ upsertProgress st.progress u w s' now' := hr
      rcases upsertProgress_mem st.progress u w s' now' r hmem with h | h
      · exact Or.inl h
      · rcases hc.2 with h' | h'
        · exact Or.inr (Or.inl (h.trans h'))
        · exact Or.inr (Or.inr (h.trans h'))

theorem updateWordStatus_status_domain_witness :
    (updateWordStatus sampleStore "u" "a" "new" 3).1.success = false ∧
    (updateWordStatus sampleStore "u" "a" "new" 3).2 = sampleStore :=
  (updateWordStatus_status_domain sampleStore "u" "a" "new" 3 (by decide)).1

/-! Word fetching (the word-fetch module): the random guest fetch and the
prioritized authenticated fetch. -/

/-- Result shape of the word-fetch functions. -/
structure WordFetchResult where
  data : Option Word
  error : Option String
  success : Bool
deriving DecidableEq, Repr

/-- fetchRandomWord: count the dictionary rows, fail with the no-words error
when the count is zero, otherwise read the single row at a random offset
below the count. The offset Math.random picks is modelled by the roff
parameter reduced modulo the count. -/
def fetchRandomWord (st : Store) (roff : Nat) : WordFetchResult :=
  if st.dict.length = 0 then
    ⟨none, some "No words found in dictionary", false⟩
  else
    match st.dict[roff % st.dict.length]? with
    | some w => ⟨some w, none, true⟩
    | none => ⟨none, some "Failed to fetch random word", false⟩

/-- Step 1 of fetchPrioritizedWord: the user_progress rows of the user whose
status is unknown or new. -/
def tier1Records (st : Store) (u : String) : List ProgressRecord :=
  st.progress.filter (fun r => r.user_id == u && (r.status == "unknown" || r.status == "new"))

/-- Inner join of the priority query: each selected progress row paired with
its dictionary row; rows without a dictionary match are dropped. -/
def tier1Joined (st : Store) (u : String) : List (ProgressRecord × Word) :=
  (tier1Records st u).filterMap (fun r => (dictFind st r.word_id).map (fun w => (r, w)))

/-- Ordering relation of the priority query: last_reviewed_at ascending. -/
def lrLE (a b : ProgressRecord × Word) : Prop :=
  a.1.last_reviewed_at ≤ b.1.last_reviewed_at

instance : DecidableRel lrLE :=
  fun a b => Nat.decLe a.1.last_reviewed_at b.1.last_reviewed_at

instance : IsTotal (ProgressRecord × Word) lrLE :=
  ⟨fun a b => Nat.le_total a.1.last_reviewed_at b.1.last_reviewed_at⟩

instance : IsTrans (ProgressRecord × Word) lrLE :=
  ⟨fun _ _ _ hab hbc => Nat.le_trans hab hbc⟩

/-- The joined rows ordered by last_reviewed_at ascending. -/
def tier1Sorted (st : Store) (u : String) : List (ProgressRecord × Word) :=
  (tier1Joined st u).insertionSort lrLE

/-- The priority query result: the ordered rows limited to 50. -/
def priorityRows (st : Store) (u : String) : List (ProgressRecord × Word) :=
  (tier1Sorted st u).take 50

/-- Random selection among the returned priority rows; none when the query
returned no rows. The random index is the pick parameter reduced modulo the
row count. -/
def selectedRow (st : Store) (u : String) (pick : Nat) : Option (ProgressRecord × Word) :=
  if h : 0 < (priorityRows st u).length then
    some ((priorityRows st u).get ⟨pick % (priorityRows st u).length, Nat.mod_lt pick h⟩)
  else
    none

/-- The Word value fetchPrioritizedWord builds from a selected row: the id
comes from the progress row, the other fields from the joined dictionary
row. -/
def joinedWordData (rw : ProgressRecord × Word) : Word :=
  ⟨rw.1.word_id, rw.2.english_word, rw.2.chinese_translation,
   rw.2.example_sentence, rw.2.created_at, rw.2.updated_at⟩

/-- Step 2 of fetchPrioritizedWord: ids of the words the user marked known. -/
def knownWordIds (st : Store) (u : String) : List String :=
  (st.progress.filter (fun r => r.user_id == u && r.status == "known")).map
    ProgressRecord.word_id

/-- fetchPrioritizedWord: pick a random row among the (up to 50) least
recently reviewed unknown/new progress rows of the user; when there are
none and the user has known words, take the first dictionary row outside
the known set (the limit-1 single query), falling back to a random word
when that query returns nothing; when the user has no progress rows at all,
fall back to a random word. -/
def fetchPrioritizedWord (st : Store) (u : String) (pick roff : Nat) : WordFetchResult :=
  match selectedRow st u pick with
  | some sel => ⟨some (joinedWordData sel), none, true⟩
  | none =>
    if (knownWordIds st u).length ≠ 0 then
      match (st.dict.filter (fun w => !((knownWordIds st u).contains w.id))).head? with
      | some w => ⟨some w, none, true⟩
      | none => fetchRandomWord st roff
    else
      fetchRandomWord st roff

/-- Status, for the user, of the word a prioritized fetch returned: none
when the fetch returned no word, otherwise the stored status lookup of the
returned id. -/
def returnedStatus (st : Store) (u : String) (pick roff : Nat) : Option (Option String) :=
  (fetchPrioritizedWord st u pick roff).data.map (fun w => statusFor st u w.id)

/-! Lemmas about statusFor and the priority query. -/

theorem find?_pair_eq_of_mem (l : List ProgressRecord)
    (hnd : (l.map progressKey).Nodup) (r : ProgressRecord) (hr : r ∈ l)
    (u w : String) (hu : r.user_id = u) (hw : r.word_id = w) :
    l.find? (fun x => x.user_id == u && x.word_id == w) = some r := by
  have hpm : (r.user_id == u && r.word_id == w) = true := (pairMatch_iff r u w).mpr ⟨hu, hw⟩
  cases hf : l.find? (fun x => x.user_id == u && x.word_id == w) with
  | none =>
    have hnot := List.find?_eq_none.mp hf r hr
    exact absurd hpm hnot
  | some r0 =>
    have hfil := filter_pair_of_find? u w l hnd r0 hf
    have hrin : r ∈ l.filter (fun x => x.user_id == u && x.word_id == w) :=
      List.mem_filter.mpr ⟨hr, hpm⟩
    rw [hfil] at hrin
    simp only [List.mem_singleton] at hrin
    rw [hrin]

theorem statusFor_of_mem (st : Store) (hnd : UniquePerPair st)
    (r : ProgressRecord) (hr : r ∈ st.progress) :
    statusFor st r.user_id r.word_id = some r.status := by
  unfold statusFor
  rw [find?_pair_eq_of_mem st.progress hnd r hr r.user_id r.word_id rfl rfl]
  rfl

theorem statusFor_none_iff (st : Store) (u w : String) :
    statusFor st u w = none ↔
      ∀ r ∈ st.progress, ¬(r.user_id = u ∧ r.word_id = w) := by
  unfold statusFor
  rw [Option.map_eq_none', List.find?_eq_none]
  constructor
  · intro h r hr hrm
    exact h r hr ((pairMatch_iff r u w).mpr hrm)
  · intro h r hr hpm
    exact h r hr ((pairMatch_iff r u w).mp hpm)

theorem statusFor_some_elim (st : Store) (u w s : String)
    (h : statusFor st u w = some s) :
    ∃ r ∈ st.progress, r.user_id = u ∧ r.word_id = w ∧ r.status = s := by
  unfold statusFor at h
  cases hf : st.progress.find? (fun x => x.user_id == u && x.word_id == w) with
  | none =>
    rw [hf] at h
    simp at h
  | some r0 =>
    rw [hf] at h
    have hmem := List.mem_of_find?_eq_some hf
    have hp0 := List.find?_some hf
    have hp := (pairMatch_iff r0 u w).mp hp0
    simp only [Option.map_some'] at h
    exact ⟨r0, hmem, hp.1, hp.2, Option.some_inj.mp h⟩

theorem selectedRow_mem (st : Store) (u : String) (pick : Nat)
    (sel : ProgressRecord × Word) (h : selectedRow st u pick = some sel) :
    sel ∈ priorityRows st u := by
  unfold selectedRow at h
  by_cases hl : 0 < (priorityRows st u).length
  · rw [dif_pos hl] at h
    rw [← Option.some_inj.mp h]
    exact List.get_mem _ _ _
  · rw [dif_neg hl] at h
    exact absurd h (by simp)

theorem tier1Joined_fst_mem (st : Store) (u : String) (g : ProgressRecord × Word)
    (hg : g ∈ tier1Joined st u) :
    g.1 ∈ st.progress ∧ g.1.user_id = u ∧
      (g.1.status = "unknown" ∨ g.1.status = "new") ∧
      dictFind st g.1.word_id = some g.2 := by
  unfold tier1Joined at hg
  rcases List.mem_filterMap.mp hg with ⟨r, hr, hmap⟩
  rcases Option.map_eq_some'.mp hmap with ⟨w', hw', heq⟩
  cases heq
  unfold tier1Records at hr
  rcases List.mem_filter.mp hr with ⟨hmem, hpred⟩
  have hp : r.user_id = u ∧ (r.status = "unknown" ∨ r.status = "new") := by
    simpa [Bool.and_eq_true, Bool.or_eq_true, beq_iff_eq] using hpred
  exact ⟨hmem, hp.1, hp.2, hw'⟩

theorem selectedRow_fst_facts (st : Store) (u : String) (pick : Nat)
    (sel : ProgressRecord × Word) (h : selectedRow st u pick = some sel) :
    sel.1 ∈ st.progress ∧ sel.1.user_id = u ∧
      (sel.1.status = "unknown" ∨ sel.1.status = "new") := by
  have h1 := selectedRow_mem st u pick sel h
  have h2 : sel ∈ tier1Sorted st u := List.mem_of_mem_take h1
  have h3 : sel ∈ tier1Joined st u := by
    unfold tier1Sorted at h2
    exact (List.perm_insertionSort lrLE (tier1Joined st u)).mem_iff.mp h2
  have h4 := tier1Joined_fst_mem st u sel h3
  exact ⟨h4.1, h4.2.1, h4.2.2.1⟩

theorem tier1Joined_eq_nil_of_selectedRow_none (st : Store) (u : String) (pick : Nat)
    (h : selectedRow st u pick = none) : tier1Joined st u = [] := by
  unfold selectedRow at h
  by_cases hl : 0 < (priorityRows st u).length
  · rw [dif_pos hl] at h
    exact absurd h (by simp)
  · have hlen : (priorityRows st u).length = 0 := Nat.eq_zero_of_not_pos hl
    have hnil : priorityRows st u = [] := List.length_eq_zero.mp hlen
    unfold priorityRows at hnil
    rcases List.take_eq_nil_iff.mp hnil with h50 | hs
    · exact absurd h50 (by norm_num)
    · unfold tier1Sorted at hs
      have hperm := List.perm_insertionSort lrLE (tier1Joined st u)
      rw [hs] at hperm
      exact hperm.symm.eq_nil

theorem fetchRandomWord_success (st : Store) (roff : Nat) (hne : st.dict ≠ []) :
    (fetchRandomWord st roff).success = true ∧ (fetchRandomWord st roff).error = none := by
  unfold fetchRandomWord
  have hlen : st.dict.length ≠ 0 := fun h => hne (List.length_eq_zero.mp h)
  rw [if_neg hlen]
  have hlt : roff % st.dict.length < st.dict.length :=
    Nat.mod_lt _ (Nat.pos_of_ne_zero hlen)
  rw [List.getElem?_eq_getElem hlt]
  exact ⟨rfl, rfl⟩

theorem fetchPrioritizedWord_success_general (st : Store) (u : String) (pick roff : Nat)
    (hne : st.dict ≠ []) :
    (fetchPrioritizedWord st u pick roff).success = true ∧
    (fetchPrioritizedWord st u pick roff).error = none := by
  have hrand := fetchRandomWord_success st roff hne
  unfold fetchPrioritizedWord
  cases hsel : selectedRow st u pick with
  | some sel => exact ⟨rfl, rfl⟩
  | none =>
    by_cases hk : (knownWordIds st u).length ≠ 0
    · rw [if_pos hk]
      cases hh : (st.dict.filter (fun w => !((knownWordIds st u).contains w.id))).head? with
      | some w => exact ⟨rfl, rfl⟩
      | none => exact hrand
    · rw [if_neg hk]
      exact hrand

/-- C1: for a user who has at least one dictionary entry in unknown or
no-record state and at least one entry in known state, the prioritized
fetch never returns a word whose stored status for that user is known. -/
theorem fetchPrioritizedWord_avoids_known (st : Store) (u : String) (pick roff : Nat)
    (hwf : WellFormed st)
    (htier1 : ∃ w ∈ st.dict, statusFor st u w.id = none ∨ statusFor st u w.id = some "unknown")
    (hknown : ∃ w ∈ st.dict, statusFor st u w.id = some "known") :
    returnedStatus st u pick roff ≠ some (some "known") := by
  unfold returnedStatus
  cases hsel : selectedRow st u pick with
  | some sel =>
    have hfacts := selectedRow_fst_facts st u pick sel hsel
    have hdata : (fetchPrioritizedWord st u pick roff).data = some (joinedWordData sel) := by
      unfold fetchPrioritizedWord
      rw [hsel]
    rw [hdata]
    have hstatus : statusFor st u sel.1.word_id = some sel.1.status := by
      have h0 := statusFor_of_mem st hwf.2.1 sel.1 hfacts.1
      rw [hfacts.2.1] at h0
      exact h0
    intro hcon
    simp only [Option.map_some'] at hcon
    have h1 : statusFor st u (joinedWordData sel).id = some "known" :=
      Option.some_inj.mp hcon
    have hid : (joinedWordData sel).id = sel.1.word_id := rfl
    rw [hid, hstatus] at h1
    have hs := Option.some_inj.mp h1
    rcases hfacts.2.2 with h | h <;> rw [h] at hs <;> exact absurd hs (by decide)
  | none =>
    have hjoined : tier1Joined st u = [] :=
      tier1Joined_eq_nil_of_selectedRow_none st u pick hsel
    rcases htier1 with ⟨w0, hw0mem, hw0⟩
    have hw0none : statusFor st u w0.id = none := by
      rcases hw0 with h | h
      · exact h
      · exfalso
        rcases statusFor_some_elim st u w0.id "unknown" h with ⟨r, hr, hru, hrw, hrs⟩
        have hrt1 : r ∈ tier1Records st u := by
          unfold tier1Records
          refine List.mem_filter.mpr ⟨hr, ?_⟩
          simp [hru, hrs]
        have hdf : (dictFind st r.word_id).isSome := by
          unfold dictFind
          refine List.find?_isSome.mpr ⟨w0, hw0mem, ?_⟩
          simp [hrw]
        rcases Option.isSome_iff_exists.mp hdf with ⟨wj, hwj⟩
        have hmemj : (r, wj) ∈ tier1Joined st u := by
          unfold tier1Joined
          refine List.mem_filterMap.mpr ⟨r, hrt1, ?_⟩
          rw [hwj]
          rfl
        rw [hjoined] at hmemj
        exact absurd hmemj (List.not_mem_nil _)
    rcases hknown with ⟨wk, hwkmem, hwk⟩
    rcases statusFor_some_elim st u wk.id "known" hwk with ⟨rk, hrk, hrku, hrkw, hrks⟩
    have hidmem : rk.word_id ∈ knownWordIds st u := by
      unfold knownWordIds
      refine List.mem_map.mpr ⟨rk, ?_, rfl⟩
      refine List.mem_filter.mpr ⟨hrk, ?_⟩
      simp [hrku, hrks]
    have hklen : (knownWordIds st u).length ≠ 0 := by
      intro hz
      rw [List.length_eq_zero.mp hz] at hidmem
      exact absurd hidmem (List.not_mem_nil _)
    have hw0notin : ¬ (w0.id ∈ knownWordIds st u) := by
      intro hin
      unfold knownWordIds at hin
      rcases List.mem_map.mp hin with ⟨r, hrfil, hrid⟩
      rcases List.mem_filter.mp hrfil with ⟨hrmem, hrpred⟩
      have hru : r.user_id = u ∧ r.status = "known" := by
        simpa [Bool.and_eq_true, beq_iff_eq] using hrpred
      exact (statusFor_none_iff st u w0.id).mp hw0none r hrmem ⟨hru.1, hrid⟩
    have hw0fil : w0 ∈ st.dict.filter (fun w => !((knownWordIds st u).contains w.id)) := by
      refine List.mem_filter.mpr ⟨hw0mem, ?_⟩
      cases hc : (knownWordIds st u).contains w0.id with
      | false => simp
      | true => exact absurd (List.elem_iff.mp hc) hw0notin
    rcases hfl : st.dict.filter (fun w => !((knownWordIds st u).contains w.id))
        with _ | ⟨wres, rest⟩
    · rw [hfl] at hw0fil
      exact absurd hw0fil (List.not_mem_nil _)
    · have hdata : (fetchPrioritizedWord st u pick roff).data = some wres := by
        unfold fetchPrioritizedWord
        rw [hsel]
        rw [if_pos hklen, hfl]
        rfl
      rw [hdata]
      intro hcon
      simp only [Option.map_some'] at hcon
      have hres : statusFor st u wres.id = some "known" := Option.some_inj.mp hcon
      have hwres_mem : wres ∈ st.dict.filter
          (fun w => !((knownWordIds st u).contains w.id)) := by
        rw [hfl]
        exact List.mem_cons_self wres rest
      rcases List.mem_filter.mp hwres_mem with ⟨hwd, hwpred⟩
      rcases statusFor_some_elim st u wres.id "known" hres with ⟨r, hr, hru2, hrw2, hrs2⟩
      have hidin : wres.id ∈ knownWordIds st u := by
        unfold knownWordIds
        refine List.mem_map.mpr ⟨r, ?_, hrw2⟩
        refine List.mem_filter.mpr ⟨hr, ?_⟩
        simp [hru2, hrs2]
      have hctrue : (knownWordIds st u).contains wres.id = true := List.elem_iff.mpr hidin
      rw [hctrue] at hwpred
      simp at hwpred

theorem fetchPrioritizedWord_avoids_known_witness :
    returnedStatus sampleStore "u" 0 0 ≠ some (some "known") :=
  fetchPrioritizedWord_avoids_known sampleStore "u" 0 0
    (by unfold WellFormed; decide) (by decide) (by decide)

/-- C3: with a non-empty dictionary the prioritized fetch always succeeds
with no error, and the random fallback it relies on succeeds as well, so
the no-words condition is never signalled, even when every entry is
known. -/
theorem fetchPrioritizedWord_no_halt (st : Store) (u : String) (pick roff : Nat)
    (hne : st.dict ≠ []) :
    (fetchPrioritizedWord st u pick roff).success = true ∧
    (fetchPrioritizedWord st u pick roff).error = none ∧
    (fetchRandomWord st roff).success = true := by
  have h := fetchPrioritizedWord_success_general st u pick roff hne
  exact ⟨h.1, h.2, (fetchRandomWord_success st roff hne).1⟩

/-- A user for whom every dictionary entry is known. -/
def kStore : Store := ⟨[wA], [⟨"u", "a", "known", 5, 1, 1⟩]⟩

theorem fetchPrioritizedWord_no_halt_witness :
    (fetchPrioritizedWord kStore "u" 0 0).success = true ∧
    (fetchPrioritizedWord kStore "u" 0 0).error = none ∧
    (fetchRandomWord kStore 0).success = true :=
  fetchPrioritizedWord_no_halt kStore "u" 0 0 (by decide)

/-- Modelled from the spec: the tier-1 candidate set named by the C2
sentence, a dictionary entry whose status for the user is unknown or new or
that has no progress record at all. -/
@[reducible] def specTier1 (st : Store) (u : String) (w : Word) : Prop :=
  statusFor st u w.id = none ∨ statusFor st u w.id = some "unknown" ∨
    statusFor st u w.id = some "new"

/-- Modelled from the spec: the ordering key named by the C2 sentence, the
last-reviewed timestamp with a sentinel epoch value of zero for entries
never reviewed. -/
def specSortKey (st : Store) (u : String) (w : Word) : Nat :=
  match st.progress.find? (fun r => r.user_id == u && r.word_id == w.id) with
  | some r => r.last_reviewed_at
  | none => 0

def c2w1 : Word := ⟨"w1", "one", "t1", none, 0, 0⟩

def c2w2 : Word := ⟨"w2", "two", "t2", none, 0, 0⟩

def c2Store : Store :=
  ⟨[c2w1, c2w2],
   [⟨"u", "w1", "unknown", 5, 1, 1⟩, ⟨"u", "w2", "unknown", 10, 1, 1⟩]⟩

/-- C2 fails on the code: with two unknown rows last reviewed at 5 and 10
and random pick index 1, the fetch returns w2 although tier-1 candidate w1
has the strictly smaller last-reviewed key, so the selected word is not one
with the minimal key. -/
theorem fetchPrioritizedWord_not_minimal :
    (fetchPrioritizedWord c2Store "u" 1 0).data.map Word.id = some "w2" ∧
    specTier1 c2Store "u" c2w1 ∧ c2w1 ∈ c2Store.dict ∧
    specSortKey c2Store "u" c2w1 = 5 ∧ specSortKey c2Store "u" c2w2 = 10 := by
  decide

/-- C2 amended: when the priority query returns rows, the fetch returns the
randomly picked one of the up to 50 earliest-reviewed unknown/new progress
rows of the user: the picked row is a stored unknown or new row of the
user, and its last-reviewed timestamp is at most that of every tier-1 row
the 50-row limit cut off. Entries without a progress record take no part in
this step. -/
theorem fetchPrioritizedWord_picks_earliest_rows (st : Store) (u : String)
    (pick roff : Nat) (hrows : priorityRows st u ≠ []) :
    (selectedRow st u pick).isSome = true ∧
    fetchPrioritizedWord st u pick roff
      = ⟨(selectedRow st u pick).map joinedWordData, none, true⟩ ∧
    (selectedRow st u pick).all (fun sel =>
      decide (sel.1 ∈ st.progress) && (sel.1.user_id == u)
        && (sel.1.status == "unknown" || sel.1.status == "new")
        && ((tier1Sorted st u).drop 50).all
            (fun t => decide (sel.1.last_reviewed_at ≤ t.1.last_reviewed_at))) = true := by
  have hl : 0 < (priorityRows st u).length := List.length_pos.mpr hrows
  have hsel : selectedRow st u pick
      = some ((priorityRows st u).get
          ⟨pick % (priorityRows st u).length, Nat.mod_lt pick hl⟩) := by
    unfold selectedRow
    rw [dif_pos hl]
  refine ⟨by rw [hsel]; rfl, ?_, ?_⟩
  · unfold fetchPrioritizedWord
    rw [hsel]
    rfl
  · rw [hsel]
    have hfacts := selectedRow_fst_facts st u pick _ hsel
    have hmem := selectedRow_mem st u pick _ hsel
    have hsorted : (tier1Sorted st u).Sorted lrLE := List.sorted_insertionSort lrLE _
    have hbound : ∀ t ∈ (tier1Sorted st u).drop 50,
        ((priorityRows st u).get
          ⟨pick % (priorityRows st u).length, Nat.mod_lt pick hl⟩).1.last_reviewed_at
          ≤ t.1.last_reviewed_at := by
      intro t ht
      exact hsorted.rel_of_mem_take_of_mem_drop hmem ht
    simp only [Option.all_some, Bool.and_eq_true, decide_eq_true_eq, List.all_eq_true,
      Bool.or_eq_true, beq_iff_eq]
    refine ⟨⟨⟨hfacts.1, hfacts.2.1⟩, hfacts.2.2⟩, ?_⟩
    intro t ht
    exact hbound t ht

theorem fetchPrioritizedWord_picks_earliest_rows_witness :
    (selectedRow c2Store "u" 1).isSome = true ∧
    fetchPrioritizedWord c2Store "u" 1 0
      = ⟨(selectedRow c2Store "u" 1).map joinedWordData, none, true⟩ ∧
    (selectedRow c2Store "u" 1).all (fun sel =>
      decide (sel.1 ∈ c2Store.progress) && (sel.1.user_id == "u")
        && (sel.1.status == "unknown" || sel.1.status == "new")
        && ((tier1Sorted c2Store "u").drop 50).all
            (fun t => decide (sel.1.last_reviewed_at ≤ t.1.last_reviewed_at))) = true :=
  fetchPrioritizedWord_picks_earliest_rows c2Store "u" 1 0 (by decide)

/-! Statistics (stats-query module). Timestamps count hours since the
epoch, so one calendar day is 24 units and the start of the day containing
a timestamp is the largest multiple of 24 not above it. -/

/-- Start of the calendar day containing a timestamp. -/
def startOfDay (t : Nat) : Nat := (t / 24) * 24

/-- The four dashboard counters. -/
structure UserStatistics where
  total : Nat
  today : Nat
  thisWeek : Nat
  remaining : Nat
deriving DecidableEq, Repr

/-- The user_progress rows of one user. -/
def userRecords (st : Store) (u : String) : List ProgressRecord :=
  st.progress.filter (fun r => r.user_id == u)

/-- Count of the user rows with status known. -/
def countKnown (st : Store) (u : String) : Nat :=
  (st.progress.filter (fun r => r.user_id == u && r.status == "known")).length

/-- Modelled from the spec: the database function get_remaining_words_count
called by fetchUserStats is not among the sources (no migration defines
it); per the spec it counts the dictionary entries whose status for the
user is new or unknown or that have no progress record. -/
def getRemainingWordsCount (st : Store) (u : String) : Nat :=
  (st.dict.filter (fun w =>
    match statusFor st u w.id with
    | none => true
    | some s => s == "new" || s == "unknown")).length

/-- fetchUserStats: the total row count of the user, the rows reviewed
inside the current calendar day, the rows reviewed since the start of the
day seven days before now (setDate minus seven, then setHours to zero) and
the remaining count from the database function. Returns none when the user
id is empty (the validation branch). -/
def fetchUserStats (st : Store) (u : String) (now : Nat) : Option UserStatistics :=
  if u = "" then none
  else
    some ⟨(userRecords st u).length,
      (userRecords st u).countP (fun r =>
        decide (startOfDay now ≤ r.last_reviewed_at)
          && decide (r.last_reviewed_at < startOfDay now + 24)),
      (userRecords st u).countP (fun r =>
        decide (startOfDay (now - 7 * 24) ≤ r.last_reviewed_at)),
      getRemainingWordsCount st u⟩

/-- fetchUserStatsBasic: the same counts, except that the week cutoff is
exactly now minus seven days (no setHours call) and remaining is computed
client side as max 0 of dictionary count minus known count. -/
def fetchUserStatsBasic (st : Store) (u : String) (now : Nat) : UserStatistics :=
  ⟨(userRecords st u).length,
   (userRecords st u).countP (fun r =>
     decide (startOfDay now ≤ r.last_reviewed_at)
       && decide (r.last_reviewed_at < startOfDay now + 24)),
   (userRecords st u).countP (fun r => decide (now - 7 * 24 ≤ r.last_reviewed_at)),
   Int.toNat (max 0 ((st.dict.length : Int) - (countKnown st u : Int)))⟩

/-! Counting lemmas for C5. -/

theorem length_filter_bool_split {α : Type} (l : List α) (p : α → Bool) :
    (l.filter p).length + (l.filter (fun a => !(p a))).length = l.length := by
  induction l with
  | nil => rfl
  | cons a l ih =>
    cases h : p a <;> simp [List.filter_cons, h] <;> omega

theorem nodup_subset_length_le {α : Type} [DecidableEq α] (l1 l2 : List α)
    (h1 : l1.Nodup) (hsub : ∀ x ∈ l1, x ∈ l2) : l1.length ≤ l2.length := by
  have hc1 : l1.toFinset.card = l1.length := List.toFinset_card_of_nodup h1
  have hss : l1.toFinset ⊆ l2.toFinset := by
    intro x hx
    rw [List.mem_toFinset] at hx ⊢
    exact hsub x hx
  calc l1.length = l1.toFinset.card := hc1.symm
    _ ≤ l2.toFinset.card := Finset.card_le_card hss
    _ ≤ l2.length := l2.toFinset_card_le

theorem knownWordIds_nodup (st : Store) (hnd : UniquePerPair st) (u : String) :
    (knownWordIds st u).Nodup := by
  have hsub : (st.progress.filter
      (fun r => r.user_id == u && r.status == "known")).Sublist st.progress :=
    List.filter_sublist st.progress
  have hknd : ((st.progress.filter
      (fun r => r.user_id == u && r.status == "known")).map progressKey).Nodup :=
    List.Nodup.sublist (hsub.map progressKey) hnd
  have hmaps : (st.progress.filter
      (fun r => r.user_id == u && r.status == "known")).map progressKey
      = (knownWordIds st u).map (fun x => (u, x)) := by
    unfold knownWordIds
    rw [List.map_map]
    apply List.map_congr_left
    intro r hr
    have hru : r.user_id = u := by
      have := (List.mem_filter.mp hr).2
      simp only [Bool.and_eq_true, beq_iff_eq] at this
      exact this.1
    simp [progressKey, Function.comp, hru]
  rw [hmaps] at hknd
  exact List.Nodup.of_map _ hknd

theorem knownWordIds_subset (st : Store) (hfk : ∀ r ∈ st.progress, r.word_id ∈ st.dict.map Word.id)
    (u : String) : ∀ x ∈ knownWordIds st u, x ∈ st.dict.map Word.id := by
  intro x hx
  unfold knownWordIds at hx
  rcases List.mem_map.mp hx with ⟨r, hr, hrid⟩
  rw [← hrid]
  exact hfk r (List.mem_filter.mp hr).1

theorem countKnown_le_dict (st : Store) (hwf : WellFormed st) (u : String) :
    countKnown st u ≤ st.dict.length := by
  have h1 : (knownWordIds st u).length ≤ (st.dict.map Word.id).length :=
    nodup_subset_length_le _ _ (knownWordIds_nodup st hwf.2.1 u)
      (knownWordIds_subset st hwf.2.2.1 u)
  unfold knownWordIds at h1
  rw [List.length_map, List.length_map] at h1
  exact h1

theorem dict_known_filter_length (st : Store) (hwf : WellFormed st) (u : String) :
    (st.dict.filter (fun w => decide (statusFor st u w.id = some "known"))).length
      = countKnown st u := by
  have hA : ((st.dict.filter
      (fun w => decide (statusFor st u w.id = some "known"))).map Word.id).Nodup := by
    refine List.Nodup.sublist ?_ hwf.1
    exact (List.filter_sublist st.dict).map Word.id
  have hB : (knownWordIds st u).Nodup := knownWordIds_nodup st hwf.2.1 u
  have hmemiff : ∀ x,
      (x ∈ (st.dict.filter
        (fun w => decide (statusFor st u w.id = some "known"))).map Word.id)
      ↔ x ∈ knownWordIds st u := by
    intro x
    constructor
    · intro hx
      rcases List.mem_map.mp hx with ⟨w, hwfil, hwid⟩
      rcases List.mem_filter.mp hwfil with ⟨hwdict, hwpred⟩
      have hst : statusFor st u w.id = some "known" := by
        simpa using hwpred
      rcases statusFor_some_elim st u w.id "known" hst with ⟨r, hr, hru, hrw, hrs⟩
      unfold knownWordIds
      refine List.mem_map.mpr ⟨r, ?_, by rw [hrw, hwid]⟩
      refine List.mem_filter.mpr ⟨hr, ?_⟩
      simp [hru, hrs]
    · intro hx
      unfold knownWordIds at hx
      rcases List.mem_map.mp hx with ⟨r, hrfil, hrid⟩
      rcases List.mem_filter.mp hrfil with ⟨hrmem, hrpred⟩
      have hrp : r.user_id = u ∧ r.status = "known" := by
        simpa [Bool.and_eq_true, beq_iff_eq] using hrpred
      rcases List.mem_map.mp (hwf.2.2.1 r hrmem) with ⟨w, hwdict, hwid⟩
      have hst : statusFor st u w.id = some "known" := by
        have h0 := statusFor_of_mem st hwf.2.1 r hrmem
        rw [hrp.1, hrp.2] at h0
        rw [hwid]
        exact h0
      refine List.mem_map.mpr ⟨w, ?_, by rw [hwid, hrid]⟩
      refine List.mem_filter.mpr ⟨hwdict, ?_⟩
      simpa using hst
  have hperm : List.Perm
      ((st.dict.filter (fun w => decide (statusFor st u w.id = some "known"))).map Word.id)
      (knownWordIds st u) :=
    (List.perm_ext_iff_of_nodup hA hB).mpr hmemiff
  have hlen := hperm.length_eq
  rw [List.length_map] at hlen
  unfold countKnown
  unfold knownWordIds at hlen
  rw [List.length_map] at hlen
  exact hlen

theorem getRemainingWordsCount_eq (st : Store) (hwf : WellFormed st) (u : String) :
    getRemainingWordsCount st u = st.dict.length - countKnown st u := by
  have hcongr : st.dict.filter (fun w =>
      match statusFor st u w.id with
      | none => true
      | some s => s == "new" || s == "unknown")
      = st.dict.filter (fun w => !(decide (statusFor st u w.id = some "known"))) := by
    apply List.filter_congr
    intro w _
    cases hs : statusFor st u w.id with
    | none => simp [hs]
    | some s =>
      rcases statusFor_some_elim st u w.id s hs with ⟨r, hr, _, _, hrs⟩
      rcases hwf.2.2.2 r hr with h | h | h <;> rw [← hrs, h] <;> simp [hs, ← hrs, h]
  have hsplit := length_filter_bool_split st.dict
    (fun w => decide (statusFor st u w.id = some "known"))
  have hknown := dict_known_filter_length st hwf u
  unfold getRemainingWordsCount
  rw [hcongr]
  omega

/-- C5: the remaining counter equals the dictionary size minus the count of
the user rows with status known, on both computation paths: the client-side
subtraction of fetchUserStatsBasic (whose max-0 clamp is inert because the
known count cannot exceed the dictionary size) and the database function of
fetchUserStats. -/
theorem remaining_eq_total_minus_known (st : Store) (u : String) (now : Nat)
    (hwf : WellFormed st) (hu : u ≠ "") :
    countKnown st u ≤ st.dict.length ∧
    (fetchUserStatsBasic st u now).remaining = st.dict.length - countKnown st u ∧
    (fetchUserStats st u now).map UserStatistics.remaining
      = some (st.dict.length - countKnown st u) := by
  have hle := countKnown_le_dict st hwf u
  refine ⟨hle, ?_, ?_⟩
  · show Int.toNat (max 0 ((st.dict.length : Int) - (countKnown st u : Int)))
      = st.dict.length - countKnown st u
    omega
  · unfold fetchUserStats
    rw [if_neg hu]
    simp only [Option.map_some']
    rw [getRemainingWordsCount_eq st hwf u]

theorem remaining_eq_total_minus_known_witness :
    countKnown sampleStore "u" ≤ sampleStore.dict.length ∧
    (fetchUserStatsBasic sampleStore "u" 100).remaining
      = sampleStore.dict.length - countKnown sampleStore "u" ∧
    (fetchUserStats sampleStore "u" 100).map UserStatistics.remaining
      = some (sampleStore.dict.length - countKnown sampleStore "u") :=
  remaining_eq_total_minus_known sampleStore "u" 100 (by unfold WellFormed; decide)
    (by decide)

/-- Modelled from the spec: the rolling seven-day count, the user rows
whose last-reviewed timestamp is at least now minus seven days. -/
def specRollingWeekCount (st : Store) (u : String) (now : Nat) : Nat :=
  (userRecords st u).countP (fun r => decide (now - 7 * 24 ≤ r.last_reviewed_at))

theorem countP_split_of_imp {α : Type} (l : List α) (p q : α → Bool)
    (himp : ∀ a ∈ l, q a = true → p a = true) :
    l.countP p = l.countP q + l.countP (fun a => p a && !(q a)) := by
  induction l with
  | nil => rfl
  | cons a l ih =>
    have hi : ∀ x ∈ l, q x = true → p x = true :=
      fun x hx => himp x (List.mem_cons_of_mem a hx)
    have ihh := ih hi
    cases hp : p a with
    | true =>
      cases hq : q a with
      | true => simp [List.countP_cons, hp, hq, ihh]; omega
      | false => simp [List.countP_cons, hp, hq, ihh]; omega
    | false =>
      cases hq : q a with
      | true =>
        have hcon := himp a (List.mem_cons_self a l) hq
        rw [hp] at hcon
        cases hcon
      | false => simp [List.countP_cons, hp, hq, ihh]

/-- The user of the C6 and C7 counterexamples: one row reviewed at hour 5. -/
def c6Store : Store := ⟨[wA], [⟨"u", "a", "known", 5, 1, 1⟩]⟩

/-- C6 fails on the code: at now 180 (noon of day 7) the rolling cutoff is
hour 12, so a row reviewed at hour 5 is outside the rolling window, yet
fetchUserStats counts it because its cutoff is truncated to the start of
day 0. -/
theorem fetchUserStats_thisWeek_not_rolling :
    (fetchUserStats c6Store "u" 180).map UserStatistics.thisWeek = some 1 ∧
    specRollingWeekCount c6Store "u" 180 = 0 := by
  decide

/-- C6 amended: the week counter of fetchUserStatsBasic is the exact
rolling seven-day count, while fetchUserStats counts from the start of the
calendar day containing now minus seven days, so it additionally counts
exactly the rows reviewed between that day boundary and the exact rolling
cutoff. -/
theorem thisWeek_window_characterization (st : Store) (u : String) (now : Nat)
    (hu : u ≠ "") :
    (fetchUserStatsBasic st u now).thisWeek = specRollingWeekCount st u now ∧
    (fetchUserStats st u now).map UserStatistics.thisWeek
      = some (specRollingWeekCount st u now
          + (userRecords st u).countP (fun r =>
              decide (startOfDay (now - 7 * 24) ≤ r.last_reviewed_at)
                && !(decide (now - 7 * 24 ≤ r.last_reviewed_at)))) := by
  refine ⟨rfl, ?_⟩
  unfold fetchUserStats
  rw [if_neg hu]
  simp only [Option.map_some']
  refine congrArg some ?_
  apply countP_split_of_imp
  intro r _ hq
  simp only [decide_eq_true_eq] at hq ⊢
  calc startOfDay (now - 7 * 24) ≤ now - 7 * 24 := Nat.div_mul_le_self _ _
    _ ≤ r.last_reviewed_at := hq

theorem thisWeek_window_characterization_witness :
    (fetchUserStatsBasic c6Store "u" 180).thisWeek = specRollingWeekCount c6Store "u" 180 ∧
    (fetchUserStats c6Store "u" 180).map UserStatistics.thisWeek
      = some (specRollingWeekCount c6Store "u" 180
          + (userRecords c6Store "u").countP (fun r =>
              decide (startOfDay (180 - 7 * 24) ≤ r.last_reviewed_at)
                && !(decide (180 - 7 * 24 ≤ r.last_reviewed_at)))) :=
  thisWeek_window_characterization c6Store "u" 180 (by decide)

/-! Learning streak (fetchLearningStreak). -/

/-- Calendar day index of a timestamp, as the code derives it from the ISO
date string of the timestamp. -/
def dayOf (t : Nat) : Int := (t / 24 : Nat)

/-- The user rows reviewed in the trailing thirty days. -/
def recentRecords (st : Store) (u : String) (now : Nat) : List ProgressRecord :=
  st.progress.filter (fun r =>
    r.user_id == u && decide (now - 30 * 24 ≤ r.last_reviewed_at))

/-- The distinct study dates of the window (the JS Set of date strings). -/
def studyDays (st : Store) (u : String) (now : Nat) : List Int :=
  ((recentRecords st u now).map (fun r => dayOf r.last_reviewed_at)).dedup

/-- The distinct dates sorted ascending then reversed, as the code does
with sort and reverse on the date strings. -/
def sortedDatesDesc (st : Store) (u : String) (now : Nat) : List Int :=
  ((studyDays st u now).insertionSort (· ≤ ·)).reverse

/-- The streak loop of fetchLearningStreak, collapsed: it walks the sorted
distinct dates, increments the running streak while dates at index i equal
today minus i, and on the first mismatch records the run and breaks; the
longest value it produces is therefore the length of the initial run
anchored at the expected date. -/
def streakRunLongest : List Int → Int → Nat
  | [], _ => 0
  | d :: rest, expected =>
    if d = expected then streakRunLongest rest (expected - 1) + 1 else 0

/-- The streak result triple. -/
structure LearningStreak where
  currentStreak : Nat
  longestStreak : Nat
  lastStudyDate : Option Int
deriving DecidableEq, Repr

/-- fetchLearningStreak: the zero triple when the window has no rows;
otherwise the current streak is one exactly when the most recent study date
is today (the loop assigns it only at index zero), the longest streak is
the run anchored at today, and the last study date is the most recent
one. -/
def fetchLearningStreak (st : Store) (u : String) (now : Nat) : LearningStreak :=
  if (recentRecords st u now).length = 0 then ⟨0, 0, none⟩
  else
    match sortedDatesDesc st u now with
    | [] => ⟨0, 0, none⟩
    | d :: rest =>
      ⟨if d = dayOf now then 1 else 0,
       streakRunLongest (d :: rest) (dayOf now),
       some d⟩

/-- Modelled from the spec: length of the run of consecutive dates starting
at a given date and moving forward in time through the given date set. -/
def runLenFrom (dates : List Int) : Int → Nat → Nat
  | _, 0 => 0
  | d, fuel + 1 => if d ∈ dates then runLenFrom dates (d + 1) fuel + 1 else 0

/-- Modelled from the spec: the maximum run length of consecutive calendar
dates present in the window. -/
def specLongestRun (dates : List Int) : Nat :=
  (dates.map (fun d => runLenFrom dates d dates.length)).foldr max 0

/-- The C7 counterexample store: one row on day 39 only. -/
def c7Store : Store := ⟨[wA], [⟨"u", "a", "known", 936, 1, 1⟩]⟩

/-- C7 fails on the code: with study activity only on day 39 and today day
40, the window holds a run of length one, but the reported longest streak
is zero because the loop breaks at the very first mismatch with today. -/
theorem fetchLearningStreak_longest_not_max_run :
    (fetchLearningStreak c7Store "u" 960).longestStreak = 0 ∧
    specLongestRun (studyDays c7Store "u" 960) = 1 := by
  decide

theorem streakRunLongest_run (l : List Int) :
    ∀ e : Int, l.Pairwise (fun a b => b < a) → (∀ x ∈ l, x ≤ e) →
    (∀ j : Nat, j < streakRunLongest l e → (e - (j : Int)) ∈ l) ∧
    ¬ ((e - (streakRunLongest l e : Int)) ∈ l) := by
  induction l with
  | nil =>
    intro e _ _
    exact ⟨fun j hj => absurd hj (by simp [streakRunLongest]), by simp⟩
  | cons d rest ih =>
    intro e hsd hub
    rcases List.pairwise_cons.mp hsd with ⟨hdlt, hrest⟩
    by_cases hde : d = e
    · subst hde
      have hub' : ∀ x ∈ rest, x ≤ d - 1 := by
        intro x hx
        have := hdlt x hx
        omega
      have ihh := ih (d - 1) hrest hub'
      have hrun : streakRunLongest (d :: rest) d
          = streakRunLongest rest (d - 1) + 1 := by
        show (if d = d then streakRunLongest rest (d - 1) + 1 else 0)
          = streakRunLongest rest (d - 1) + 1
        rw [if_pos rfl]
      rw [hrun]
      constructor
      · intro j hj
        cases j with
        | zero =>
          simp only [Nat.cast_zero, sub_zero]
          exact List.mem_cons_self d rest
        | succ j' =>
          have hj' : j' < streakRunLongest rest (d - 1) := by omega
          have hmem := ihh.1 j' hj'
          have heq : d - ((j' + 1 : Nat) : Int) = (d - 1) - (j' : Int) := by
            push_cast
            ring
          rw [heq]
          exact List.mem_cons_of_mem d hmem
      · intro hmem
        have heq : d - ((streakRunLongest rest (d - 1) + 1 : Nat) : Int)
            = (d - 1) - (streakRunLongest rest (d - 1) : Int) := by
          push_cast
          ring
        rw [heq] at hmem
        rcases List.mem_cons.mp hmem with h | h
        · omega
        · exact ihh.2 h
    · have hrun : streakRunLongest (d :: rest) e = 0 := by
        show (if d = e then streakRunLongest rest (e - 1) + 1 else 0) = 0
        rw [if_neg hde]
      rw [hrun]
      refine ⟨fun j hj => absurd hj (by omega), ?_⟩
      intro hmem
      simp only [Nat.cast_zero, sub_zero] at hmem
      rcases List.mem_cons.mp hmem with h | h
      · exact hde h.symm
      · have h1 := hdlt e h
        have h2 := hub d (List.mem_cons_self d rest)
        omega

theorem sortedDatesDesc_pairwise (st : Store) (u : String) (now : Nat) :
    (sortedDatesDesc st u now).Pairwise (fun a b => b < a) := by
  unfold sortedDatesDesc
  rw [List.pairwise_reverse]
  have hsorted : ((studyDays st u now).insertionSort (· ≤ ·)).Pairwise (· ≤ ·) :=
    List.sorted_insertionSort _ _
  have hnd : ((studyDays st u now).insertionSort (· ≤ ·)).Nodup := by
    rw [(List.perm_insertionSort _ _).nodup_iff]
    exact List.nodup_dedup _
  have hlt := List.Pairwise.and hsorted hnd
  refine hlt.imp ?_
  intro a b hab
  rcases hab with ⟨hle, hne⟩
  exact lt_of_le_of_ne hle hne

theorem sortedDatesDesc_mem (st : Store) (u : String) (now : Nat) (x : Int) :
    x ∈ sortedDatesDesc st u now ↔ x ∈ studyDays st u now := by
  unfold sortedDatesDesc
  rw [List.mem_reverse]
  exact (List.perm_insertionSort _ _).mem_iff

/-- C7 amended: the longest streak the code reports is the run of
consecutive study dates anchored at today: every one of that many days
counting back from today is a study date, and the day just beyond the run
is not. Disconnected earlier runs are ignored, because the loop breaks at
the first gap. -/
theorem fetchLearningStreak_longest_anchored (st : Store) (u : String) (now : Nat)
    (hne : recentRecords st u now ≠ [])
    (hpast : ∀ r ∈ st.progress, dayOf r.last_reviewed_at ≤ dayOf now) :
    ((List.range (fetchLearningStreak st u now).longestStreak).all
      (fun j => decide ((dayOf now - (j : Int)) ∈ studyDays st u now))) = true ∧
    ¬ ((dayOf now - ((fetchLearningStreak st u now).longestStreak : Int))
        ∈ studyDays st u now) := by
  have hlen : (recentRecords st u now).length ≠ 0 :=
    fun h => hne (List.length_eq_zero.mp h)
  have hubound : ∀ x ∈ sortedDatesDesc st u now, x ≤ dayOf now := by
    intro x hx
    rw [sortedDatesDesc_mem] at hx
    unfold studyDays at hx
    rcases List.mem_dedup.mp hx with hx'
    rcases List.mem_map.mp hx' with ⟨r, hr, hrd⟩
    rw [← hrd]
    exact hpast r (List.mem_filter.mp hr).1
  have hrun := streakRunLongest_run (sortedDatesDesc st u now) (dayOf now)
    (sortedDatesDesc_pairwise st u now) hubound
  have hssne : sortedDatesDesc st u now ≠ [] := by
    intro hnil
    unfold sortedDatesDesc at hnil
    have h1 : (studyDays st u now).insertionSort (· ≤ ·) = [] := by
      rw [← List.reverse_reverse ((studyDays st u now).insertionSort (· ≤ ·)), hnil]
      rfl
    have h2 : studyDays st u now = [] := by
      have hperm := List.perm_insertionSort (fun a b : Int => a ≤ b) (studyDays st u now)
      rw [h1] at hperm
      exact hperm.symm.eq_nil
    unfold studyDays at h2
    have h3 : (recentRecords st u now).map
        (fun r => dayOf r.last_reviewed_at) = [] := by
      rw [← List.dedup_eq_nil]
      exact h2
    rw [List.map_eq_nil_iff] at h3
    exact hne h3
  have hL : (fetchLearningStreak st u now).longestStreak
      = streakRunLongest (sortedDatesDesc st u now) (dayOf now) := by
    unfold fetchLearningStreak
    rw [if_neg hlen]
    rcases hss : sortedDatesDesc st u now with _ | ⟨d, rest⟩
    · exact absurd hss hssne
    · rfl
  constructor
  · rw [List.all_eq_true]
    intro j hj
    rw [List.mem_range] at hj
    rw [hL] at hj
    rw [decide_eq_true_eq]
    rw [← sortedDatesDesc_mem]
    exact hrun.1 j hj
  · rw [hL, ← sortedDatesDesc_mem]
    exact hrun.2

/-- A user with study activity on days 39 and 40 only. -/
def c7bStore : Store :=
  ⟨[wA, wB],
   [⟨"u", "a", "known", 965, 1, 1⟩, ⟨"u", "b", "unknown", 940, 1, 1⟩]⟩

theorem fetchLearningStreak_longest_anchored_witness :
    ((List.range (fetchLearningStreak c7bStore "u" 970).longestStreak).all
      (fun j => decide ((dayOf 970 - (j : Int)) ∈ studyDays c7bStore "u" 970))) = true ∧
    ¬ ((dayOf 970 - ((fetchLearningStreak c7bStore "u" 970).longestStreak : Int))
        ∈ studyDays c7bStore "u" 970) :=
  fetchLearningStreak_longest_anchored c7bStore "u" 970 (by decide) (by decide)

/-! Review session controllers: the FlashcardComponent and the
UserWordLearning component, and the keyboard handler hook. Each handler is
modelled as a state transformer returning the new component state together
with a flag telling whether it scheduled loading the next word. -/

/-- In-memory state of FlashcardComponent. -/
structure FlashcardState where
  currentWord : Option Word
  isFlipped : Bool
  isLoading : Bool
  updating : Bool
  error : Option String
deriving DecidableEq, Repr

/-- FlashcardComponent.handleStatusUpdate: it exits early when no word or
no user is present; otherwise it fires the onStatusUpdate callback without
awaiting or inspecting the result of the write (the writeSucceeded
parameter is therefore unused), schedules loadWord after 800 ms exactly
when autoAdvance is set, and clears updating. The error state is never
touched. -/
def flashcardHandleStatusUpdate (st : FlashcardState) (userId : Option String)
    (_writeSucceeded : Bool) (autoAdvance : Bool) : FlashcardState × Bool :=
  match st.currentWord, userId with
  | none, _ => (st, false)
  | some _, none => (st, false)
  | some _, some _ => ({ st with updating := false }, autoAdvance)

/-- In-memory state of the UserWordLearning component. -/
structure UWLState where
  currentWord : Option Word
  currentProgress : String
  loading : Bool
  updating : Bool
  error : Option String
deriving DecidableEq, Repr

/-- UserWordLearning.handleStatusUpdate: it exits early without user or
word; otherwise it awaits the write, and on success records the new status
and schedules the next load after one second, while on failure it sets the
error message (falling back to a default) and does not schedule a load;
updating is cleared either way. -/
def uwlHandleStatusUpdate (st : UWLState) (userId : Option String)
    (result : ProgressUpdateResult) : UWLState × Bool :=
  match userId, st.currentWord with
  | none, _ => (st, false)
  | some _, none => (st, false)
  | some _, some _ =>
    match result.success, result.data with
    | true, some d =>
      ({ st with error := none, currentProgress := d.status, updating := false }, true)
    | true, none =>
      ({ st with
          error := some (result.error.getD "Failed to update word status")
          updating := false }, false)
    | false, _ =>
      ({ st with
          error := some (result.error.getD "Failed to update word status")
          updating := false }, false)

/-- The word of the C8 and C9 concrete states. -/
def c8Word : Word := ⟨"a", "apple", "ta", none, 0, 0⟩

/-- A revealed flashcard with a word loaded and no pending operation. -/
def c8State : FlashcardState := ⟨some c8Word, true, false, false, none⟩

/-- C8 fails on the code: in FlashcardComponent a failed decision write
still schedules the next word fetch (when autoAdvance is set, the default)
and leaves the error state empty, because the component never awaits the
write result. -/
theorem flashcard_advances_on_failed_write :
    (flashcardHandleStatusUpdate c8State (some "u") false true).2 = true ∧
    (flashcardHandleStatusUpdate c8State (some "u") false true).1.error = none := by
  decide

/-- C8 amended: UserWordLearning does satisfy the claim: on a failed write
it keeps the current word and its progress label, sets an error, and does
not schedule the next fetch. FlashcardComponent does not: its handler
ignores the write result entirely, keeping the word, the flip state and
the error state unchanged while scheduling the next fetch exactly when
autoAdvance is set, on failure as on success. -/
theorem controller_failed_write_behavior (stu : UWLState) (stf : FlashcardState)
    (uid : String) (res : ProgressUpdateResult) (writeOk autoAdvance : Bool)
    (hw : stu.currentWord.isSome) (hfail : res.success = false) :
    (uwlHandleStatusUpdate stu (some uid) res).1.currentWord = stu.currentWord ∧
    (uwlHandleStatusUpdate stu (some uid) res).1.currentProgress = stu.currentProgress ∧
    (uwlHandleStatusUpdate stu (some uid) res).1.error
      = some (res.error.getD "Failed to update word status") ∧
    (uwlHandleStatusUpdate stu (some uid) res).2 = false ∧
    (flashcardHandleStatusUpdate stf (some uid) writeOk autoAdvance).1.currentWord
      = stf.currentWord ∧
    (flashcardHandleStatusUpdate stf (some uid) writeOk autoAdvance).1.isFlipped
      = stf.isFlipped ∧
    (flashcardHandleStatusUpdate stf (some uid) writeOk autoAdvance).1.error
      = stf.error ∧
    ((flashcardHandleStatusUpdate stf (some uid) writeOk autoAdvance).2 = true
      ↔ stf.currentWord.isSome = true ∧ autoAdvance = true) := by
  rcases hcw : stu.currentWord with _ | w
  · rw [hcw] at hw
    cases hw
  · have huwl : uwlHandleStatusUpdate stu (some uid) res
        = ({ stu with
            error := some (res.error.getD "Failed to update word status")
            updating := false }, false) := by
      unfold uwlHandleStatusUpdate
      rw [hcw, hfail]
    refine ⟨by simp [huwl, hcw], by simp [huwl], by simp [huwl], by simp [huwl],
        ?_, ?_, ?_, ?_⟩ <;>
    · rcases h' : stf.currentWord with _ | w' <;>
        simp [flashcardHandleStatusUpdate, h']

theorem controller_failed_write_behavior_witness :
    (uwlHandleStatusUpdate ⟨some c8Word, "new", false, false, none⟩ (some "u")
        ⟨none, some "boom", false⟩).1.currentWord = some c8Word ∧
    (uwlHandleStatusUpdate ⟨some c8Word, "new", false, false, none⟩ (some "u")
        ⟨none, some "boom", false⟩).1.currentProgress = "new" ∧
    (uwlHandleStatusUpdate ⟨some c8Word, "new", false, false, none⟩ (some "u")
        ⟨none, some "boom", false⟩).1.error = some "boom" ∧
    (uwlHandleStatusUpdate ⟨some c8Word, "new", false, false, none⟩ (some "u")
        ⟨none, some "boom", false⟩).2 = false := by
  have h := controller_failed_write_behavior
    ⟨some c8Word, "new", false, false, none⟩ c8State "u"
    ⟨none, some "boom", false⟩ false true (by decide) (by decide)
  exact ⟨h.1, h.2.1, h.2.2.1, h.2.2.2.1⟩

/-! Keyboard handling (useKeyboardHandler) and its wiring in
FlashcardComponent. -/

/-- The keys the hook reacts to. -/
inductive Key
  | space
  | arrowLeft
  | arrowRight
  | other
deriving DecidableEq, Repr

/-- What a dispatched flashcard input does. -/
inductive FCAction
  | flip
  | startFetch
  | logPrevious
deriving DecidableEq, Repr

/-- Configuration the component hands the hook: the callbacks are modelled
by the action they would run (none when the callback itself bails out). -/
structure KeyboardHandlerConfig where
  onSpace : Option FCAction
  onArrowLeft : Option FCAction
  onArrowRight : Option FCAction
  enabled : Bool
deriving DecidableEq, Repr

/-- handleKeyDown of useKeyboardHandler: the enabled flag is checked first
and discards the event outright; otherwise the key is dispatched to its
callback. -/
def handleKeyDown (cfg : KeyboardHandlerConfig) (k : Key) : Option FCAction :=
  if !cfg.enabled then none
  else
    match k with
    | .space => cfg.onSpace
    | .arrowLeft => cfg.onArrowLeft
    | .arrowRight => cfg.onArrowRight
    | .other => none

/-- The keyboard wiring of FlashcardComponent: enabled is notLoading and
word present; Space runs handleFlip, which itself bails out while loading
or without a word; ArrowRight runs handleNext, which calls loadWord with no
further guard; ArrowLeft only logs. -/
def flashcardKeyDispatch (st : FlashcardState) (k : Key) : Option FCAction :=
  handleKeyDown
    ⟨if st.isLoading ∨ st.currentWord = none then none else some .flip,
     some .logPrevious,
     some .startFetch,
     !st.isLoading && st.currentWord.isSome⟩ k

/-- The mark-known / mark-unknown buttons of FlashcardComponent: the
disabled attribute is isLoading or updating, and handleStatusUpdate then
requires a word and a user. True means a progress write is dispatched. -/
def flashcardMarkDispatch (st : FlashcardState) (userId : Option String) : Bool :=
  if st.isLoading ∨ st.updating then false
  else
    match st.currentWord, userId with
    | some _, some _ => true
    | _, _ => false

/-- A flashcard state with a progress write in flight. -/
def c9State : FlashcardState := ⟨some c8Word, true, false, true, none⟩

/-- C9 fails on the code: while a progress write is in flight (updating
set, loading clear) the keyboard enabled flag is still true, so an
ArrowRight press dispatches a new word fetch concurrently with the
outstanding write. -/
theorem keyboard_next_during_write :
    c9State.updating = true ∧
    flashcardKeyDispatch c9State Key.arrowRight = some FCAction.startFetch := by
  decide

/-- C9 amended: single-flight holds for fetches but not across a write:
while a word fetch is in flight, or no word is loaded, the keyboard enabled
flag discards every key before dispatch, and the mark buttons are disabled
during a fetch as well as during a write; but the keyboard enabled flag
does not consult the write-in-flight state, so reveal/next keys are still
dispatched while a write is outstanding. -/
theorem busy_input_discipline (st : FlashcardState) (userId : Option String) (k : Key)
    (hbusy : st.isLoading = true ∨ st.currentWord = none) :
    flashcardKeyDispatch st k = none ∧
    (st.isLoading = true → flashcardMarkDispatch st userId = false) ∧
    (∀ st' : FlashcardState, ∀ uid : Option String,
      st'.updating = true → flashcardMarkDispatch st' uid = false) := by
  refine ⟨?_, ?_, ?_⟩
  · unfold flashcardKeyDispatch handleKeyDown
    have hen : (!st.isLoading && st.currentWord.isSome) = false := by
      rcases hbusy with h | h
      · rw [h]
        rfl
      · rw [h]
        simp
    rw [hen]
    rfl
  · intro hload
    unfold flashcardMarkDispatch
    rw [if_pos (Or.inl hload)]
  · intro st' uid hupd
    unfold flashcardMarkDispatch
    rw [if_pos (Or.inr hupd)]

theorem busy_input_discipline_witness :
    flashcardKeyDispatch ⟨some c8Word, false, true, false, none⟩ Key.arrowRight = none ∧
    ((⟨some c8Word, false, true, false, none⟩ : FlashcardState).isLoading = true →
      flashcardMarkDispatch ⟨some c8Word, false, true, false, none⟩ (some "u") = false) ∧
    (∀ st' : FlashcardState, ∀ uid : Option String,
      st'.updating = true → flashcardMarkDispatch st' uid = false) :=
  busy_input_discipline ⟨some c8Word, false, true, false, none⟩ (some "u")
    Key.arrowRight (Or.inl (by decide))

end VocabApp
